import Mathlib

/-!
Model of the orchestration layer of ctags (src/main/main.c): entry
classification, directory recursion, the batch and interactive main loops,
and the environment sanitizer.  External collaborators of main.c (eStat,
parseFile, opendir/readdir, option parsing, the tag writer, jansson) are
modelled as components of a `World` record; diagnostics and I/O side effects
are modelled as an `Event` trace.  The general recursion over the file
system is modelled with an explicit fuel parameter: a result of `none` means
the fuel ran out, and theorems are stated about terminating runs
(results of the form `some r`).
-/

namespace Ctags

/-- Result of `eStat` (routines.c, external collaborator): the fields of
`fileStatus` that `createTagsForEntry` reads.  The C field `exists` is named
`fsExists` here because `exists` is reserved in Lean. -/
structure FileStatus where
  fsExists : Bool
  isSymbolicLink : Bool
  isDirectory : Bool
  isNormalFile : Bool
deriving DecidableEq

/-- The dispatch-relevant fields of the global `Option` record (options.h,
external collaborator).  `etagsIncludeSet` models `Option.etagsInclude ≠
NULL`.  Field order: recurse, maxRecursionDepth, followLinks, filter,
filterTerminator, fileList, printLanguage, etags, etagsIncludeSet. -/
structure Options where
  recurse : Bool
  maxRecursionDepth : Nat
  followLinks : Bool
  filter : Bool
  filterTerminator : Option String
  fileList : Option String
  printLanguage : Bool
  etags : Bool
  etagsIncludeSet : Bool

/-- The environment of one run: the external collaborators of main.c as pure
functions.  `stat` models `eStat` (a missing path is a status with
`fsExists = false`); `readdir` gives the raw entries of a directory in the
order readdir returns them, possibly including "." and ".."; `opendirOk`
tells whether `opendir` succeeds; `findfirstResults` gives the entries the
findfirst/findnext fallback reports for a pattern; `parseFile` is the
external parse stage returning the per-file resize result; `filesRequired`
models `filesRequired ()` (options.c); `listFile` models opening and
tokenizing a named list file (`none` = fopen failure); `stdinArgs` are the
entries currently readable from standard input. -/
structure World where
  stat : String → FileStatus
  isExcludedFile : String → Bool
  isRecursiveLink : String → Bool
  opendirOk : String → Bool
  readdir : String → List String
  findfirstResults : String → List String
  parseFile : String → Bool
  filesRequired : Bool
  listFile : String → Option (List String)
  stdinArgs : List String

/-- Side effects of the orchestration layer, in emission order: diagnostics
(verbose and warning lines, identified by their subject rather than their
format string), dispatches to the external parse stage, tag store
operations, and stream I/O. -/
inductive Event where
  | statQuery (path : String)
  | excluded (path : String)
  | ignoredSymlink (path : String)
  | warnCannotOpen (path : String)
  | ignoredRecursiveLink (path : String)
  | ignoredDirectory (path : String)
  | depthExceeded (path : String) (depth : Nat) (maxDepth : Nat)
  | recursing (path : String)
  | warnCannotRecurse (path : String)
  | ignoredSpecial (path : String)
  | parsed (path : String)
  | terminator (s : String)
  | flush
  | openTagFile
  | closeTagFile (resize : Bool)
  | fatal (msg : String)
  | program
  | completed
  | parsedMio (filename : String) (bytes : List Nat)
deriving DecidableEq

/-- Result of one walker call: the resize flag returned, the events emitted,
and the value of the process-wide `recursionDepth` counter after the call
(the static counter of `recurseIntoDirectory` is threaded explicitly). -/
structure EntryResult where
  resize : Bool
  events : List Event
  depth : Nat
deriving DecidableEq

/-- Modelled from the spec: `combinePathAndFile` (routines.c, not under
src/) joins a directory name and an entry name with the path separator
("the child path is the directory name joined with the entry name by the
path separator"). -/
def combinePathAndFile (dirName fileName : String) : String :=
  dirName ++ "/" ++ fileName

/-- Modelled from the spec: `baseFilename` (routines.c, not under src/)
returns the filename component of a path; the wildcard expander uses the
offset `baseFilename (pattern) - pattern`, modelled as the index just after
the last path separator (0 when there is none). -/
def baseFilenameIndex (pattern : String) : Nat :=
  pattern.length - (pattern.toList.reverse.findIdx (fun c => c == '/'))

mutual

/-- createTagsForEntry (main.c, lines 249-270).  `eStat` is queried once, up
front (the `statQuery` event); then the first matching branch of the
if/else-if chain runs. -/
def createTagsForEntry (fuel : Nat) (w : World) (opt : Options) (s : Nat)
    (name : String) : Option EntryResult :=
  match fuel with
  | 0 => none
  | f + 1 =>
    if w.isExcludedFile name then
      some ⟨false, [Event.statQuery name, Event.excluded name], s⟩
    else if (w.stat name).isSymbolicLink && !opt.followLinks then
      some ⟨false, [Event.statQuery name, Event.ignoredSymlink name], s⟩
    else if !(w.stat name).fsExists then
      some ⟨false, [Event.statQuery name, Event.warnCannotOpen name], s⟩
    else if (w.stat name).isDirectory then
      match recurseIntoDirectory f w opt s name with
      | none => none
      | some r => some ⟨r.resize, Event.statQuery name :: r.events, r.depth⟩
    else if !(w.stat name).isNormalFile then
      some ⟨false, [Event.statQuery name, Event.ignoredSpecial name], s⟩
    else
      some ⟨w.parseFile name, [Event.statQuery name, Event.parsed name], s⟩
termination_by (fuel, 0)

/-- recurseIntoDirectory (main.c, lines 213-247).  The static counter
`recursionDepth` is the threaded state `s`: incremented on entry, checked by
the three refusal branches, decremented on every exit path.  This build uses
the HAVE_OPENDIR configuration; the findfirst fallback is modelled by the
separate wildcard functions below, mirroring the #elif. -/
def recurseIntoDirectory (fuel : Nat) (w : World) (opt : Options) (s : Nat)
    (dirName : String) : Option EntryResult :=
  match fuel with
  | 0 => none
  | f + 1 =>
    if w.isRecursiveLink dirName then
      some ⟨false, [Event.ignoredRecursiveLink dirName], s + 1 - 1⟩
    else if !opt.recurse then
      some ⟨false, [Event.ignoredDirectory dirName], s + 1 - 1⟩
    else if opt.maxRecursionDepth < s + 1 then
      some ⟨false, [Event.depthExceeded dirName (s + 1) opt.maxRecursionDepth], s + 1 - 1⟩
    else
      match recurseUsingOpendir f w opt (s + 1) dirName with
      | none => none
      | some r => some ⟨r.resize, Event.recursing dirName :: r.events, r.depth - 1⟩
termination_by (fuel, 0)

/-- recurseUsingOpendir (main.c, lines 129-160): opendir, then the readdir
loop (`goChildren`). -/
def recurseUsingOpendir (fuel : Nat) (w : World) (opt : Options) (s : Nat)
    (dirName : String) : Option EntryResult :=
  match fuel with
  | 0 => none
  | f + 1 =>
    if !w.opendirOk dirName then
      some ⟨false, [Event.warnCannotRecurse dirName], s⟩
    else
      goChildren f w opt s dirName (w.readdir dirName) false
termination_by (fuel, 0)

/-- The readdir while loop of recurseUsingOpendir (main.c, lines 138-156):
skip "." and "..", build the child path (bare entry name when the directory
is "."), classify the child, OR the result into the `resize` accumulator. -/
def goChildren (fuel : Nat) (w : World) (opt : Options) (s : Nat)
    (dirName : String) (entries : List String) (resize : Bool) :
    Option EntryResult :=
  match entries with
  | [] => some ⟨resize, [], s⟩
  | e :: rest =>
    if e = "." ∨ e = ".." then
      goChildren fuel w opt s dirName rest resize
    else
      match createTagsForEntry fuel w opt s
          (if dirName = "." then e else combinePathAndFile dirName e) with
      | none => none
      | some r =>
        match goChildren fuel w opt r.depth dirName rest (resize || r.resize) with
        | none => none
        | some r2 => some ⟨r2.resize, r.events ++ r2.events, r2.depth⟩
termination_by (fuel, entries.length + 1)

end

/-- createTagsForWildcardEntry (main.c, lines 164-179): the findfirst
fallback must not recurse into "." or ".."; otherwise the child path is the
directory part of the pattern (its first `dirLength` characters) followed by
the entry name. -/
def createTagsForWildcardEntry (fuel : Nat) (w : World) (opt : Options)
    (s : Nat) (pattern : String) (dirLength : Nat) (entryName : String) :
    Option EntryResult :=
  if entryName = "." ∨ entryName = ".." then
    some ⟨false, [], s⟩
  else
    createTagsForEntry fuel w opt s (pattern.take dirLength ++ entryName)

/-- The findfirst/findnext loop of createTagsForWildcardUsingFindfirst
(main.c, lines 185-205), over the entries the platform reports. -/
def wildcardLoop (fuel : Nat) (w : World) (opt : Options) (s : Nat)
    (pattern : String) (dirLength : Nat) (entries : List String)
    (resize : Bool) : Option EntryResult :=
  match entries with
  | [] => some ⟨resize, [], s⟩
  | e :: rest =>
    match createTagsForWildcardEntry fuel w opt s pattern dirLength e with
    | none => none
    | some r =>
      match wildcardLoop fuel w opt r.depth pattern dirLength rest (resize || r.resize) with
      | none => none
      | some r2 => some ⟨r2.resize, r.events ++ r2.events, r2.depth⟩

/-- createTagsForWildcardUsingFindfirst (main.c, lines 181-208). -/
def createTagsForWildcardUsingFindfirst (fuel : Nat) (w : World)
    (opt : Options) (s : Nat) (pattern : String) : Option EntryResult :=
  wildcardLoop fuel w opt s pattern (baseFilenameIndex pattern)
    (w.findfirstResults pattern) false

/-- etagsInclude (main.c, lines 427-430). -/
def etagsInclude (opt : Options) : Bool :=
  opt.etags && opt.etagsIncludeSet

/-- createTagsForArgs (main.c, lines 298-317).  The cooked argument cursor
is modelled as the list of its remaining positional items;
`parseCmdlineOptions` (options.c, external collaborator) is modelled as not
changing the dispatch-relevant options.  `resize` is the accumulator of the
C while loop (the C function starts it at false). -/
def createTagsForArgs (fuel : Nat) (w : World) (opt : Options) (s : Nat)
    (args : List String) (resize : Bool) : Option EntryResult :=
  match args with
  | [] => some ⟨resize, [], s⟩
  | a :: rest =>
    match createTagsForEntry fuel w opt s a with
    | none => none
    | some r =>
      match createTagsForArgs fuel w opt r.depth rest (resize || r.resize) with
      | none => none
      | some r2 => some ⟨r2.resize, r.events ++ r2.events, r2.depth⟩

/-- createTagsFromFileInput (main.c, lines 321-343).  Each entry is
classified; in filter mode the configured terminator (when non-null) is
written and standard output is flushed after every entry.  The open stream
is modelled by its list of entries. -/
def createTagsFromFileInput (fuel : Nat) (w : World) (opt : Options)
    (s : Nat) (entries : List String) (filter : Bool) (resize : Bool) :
    Option EntryResult :=
  match entries with
  | [] => some ⟨resize, [], s⟩
  | e :: rest =>
    match createTagsForEntry fuel w opt s e with
    | none => none
    | some r =>
      match createTagsFromFileInput fuel w opt r.depth rest filter (resize || r.resize) with
      | none => none
      | some r2 =>
        some ⟨r2.resize,
              r.events ++
                (if filter then
                  (match opt.filterTerminator with
                   | some t => [Event.terminator t]
                   | none => []) ++ [Event.flush]
                 else []) ++ r2.events,
              r2.depth⟩

/-- createTagsFromListFile (main.c, lines 347-362).  The sentinel "-" reads
from standard input; otherwise the named file is opened (`World.listFile`)
and an open failure is the fatal "cannot open list file" error (printf
arguments elided from the message).  The caller passes the entries standard
input currently holds. -/
def createTagsFromListFile (fuel : Nat) (w : World) (opt : Options) (s : Nat)
    (fname : String) (stdinArgs : List String) :
    Option (Sum (List Event) EntryResult) :=
  if fname = "-" then
    match createTagsFromFileInput fuel w opt s stdinArgs false false with
    | none => none
    | some r => some (Sum.inr r)
  else
    match w.listFile fname with
    | none => some (Sum.inl [Event.fatal "cannot open list file"])
    | some entries =>
      match createTagsFromFileInput fuel w opt s entries false false with
      | none => none
      | some r => some (Sum.inr r)

/-- batchMakeTags (main.c, lines 443-493).  Timing (`timeStamp`) and
`printTotals` are not modelled; pure narration verbose lines are omitted.
Standard input is consumed by the first stage that reads it, so after a
list file of "-" the filter stage sees an exhausted stream.  A fatal error
terminates the run: the trace ends at the fatal event. -/
def batchMakeTags (fuel : Nat) (w : World) (opt : Options) (s : Nat)
    (args : List String) : Option (List Event) :=
  let files := !args.isEmpty || opt.fileList.isSome || opt.filter
  if !files && w.filesRequired then
    some [Event.fatal "No files specified"]
  else if !files && !opt.recurse && !etagsInclude opt then
    some []
  else
    let openEvs := if !opt.filter && !opt.printLanguage then [Event.openTagFile] else []
    match createTagsForArgs fuel w opt s args false with
    | none => none
    | some r1 =>
      match (match opt.fileList with
             | none => some (Sum.inr ((⟨false, [], r1.depth⟩ : EntryResult), w.stdinArgs))
             | some fname =>
               match createTagsFromListFile fuel w opt r1.depth fname w.stdinArgs with
               | none => none
               | some (Sum.inl evs) => some (Sum.inl evs)
               | some (Sum.inr r2) =>
                 some (Sum.inr (r2, if fname = "-" then [] else w.stdinArgs))) with
      | none => none
      | some (Sum.inl fatalEvs) => some (openEvs ++ r1.events ++ fatalEvs)
      | some (Sum.inr (r2, stdin2)) =>
        let resize2 := r2.resize || r1.resize
        match (if opt.filter then createTagsFromFileInput fuel w opt r2.depth stdin2 true false
               else some (⟨false, [], r2.depth⟩ : EntryResult)) with
        | none => none
        | some r3 =>
          let resize3 := r3.resize || resize2
          match (if !files && opt.recurse then recurseIntoDirectory fuel w opt r3.depth "."
                 else some (⟨false, [], r3.depth⟩ : EntryResult)) with
          | none => none
          | some r4 =>
            let resize4 := if !files && opt.recurse then r4.resize else resize3
            let closeEvs := if !opt.filter && !opt.printLanguage then [Event.closeTagFile resize4] else []
            some (openEvs ++ r1.events ++ r2.events ++ r3.events ++ r4.events ++ closeEvs)

/-- One input line of the interactive protocol, as json_loads and the
json_object_get / json_unpack accesses classify it.  In `generateTags
filename size`, `filename` is `none` when the required string field is
missing (json_unpack "ss" failure) and `size` is `none` when the optional
integer field is absent, leaving the C sentinel -1 in place. -/
inductive ReqLine where
  | emptyLine
  | badJson
  | noCommand
  | generateTags (filename : Option String) (size : Option Int)
  | unknownCommand
deriving DecidableEq

/-- Standard input of the interactive loop: a typed stream of request lines
(read by fgets) and raw payload bytes (read by fread). -/
inductive InItem where
  | line (r : ReqLine)
  | byte (b : Nat)
deriving DecidableEq

/-- fread (data, 1, n, stdin): take n leading payload bytes; at end of
stream the read is short and the C code uses the returned count.  A request
line in the middle of a payload read is outside the typed-stream model
(`none`). -/
def freadBytes (n : Nat) (stdin : List InItem) : Option (List Nat × List InItem) :=
  match n, stdin with
  | 0, s => some ([], s)
  | _ + 1, [] => some ([], [])
  | n + 1, InItem.byte b :: rest =>
    match freadBytes n rest with
    | none => none
    | some (bs, s) => some (b :: bs, s)
  | _ + 1, InItem.line _ :: _ => none

/-- The while loop of interactiveLoop (main.c, lines 504-562).  `s` is the
process-wide recursionDepth (the disk-read branch classifies the filename
exactly as batch mode does).  The semantics of error (FATAL, ...) are
modelled from the spec (error.c is not under src/): a fatal diagnostic
terminates the whole process, so the trace ends there and no later line is
read.  A payload byte at a line-read position is outside the typed-stream
model (`none`), as is a negative explicit size other than the -1 sentinel
(eMalloc of a negative size). -/
def iLoop (fuel : Nat) (w : World) (opt : Options) (s : Nat)
    (stdin : List InItem) : Option (List Event) :=
  match fuel with
  | 0 => none
  | f + 1 =>
    match stdin with
    | [] => some []
    | InItem.byte _ :: _ => none
    | InItem.line req :: rest =>
      match req with
      | ReqLine.emptyLine => iLoop f w opt s rest
      | ReqLine.badJson => some [Event.fatal "invalid json"]
      | ReqLine.noCommand => some [Event.fatal "command name not found"]
      | ReqLine.unknownCommand => some [Event.fatal "unknown command name"]
      | ReqLine.generateTags none _ => some [Event.fatal "invalid generate-tags request"]
      | ReqLine.generateTags (some filename) sizeField =>
        if sizeField.getD (-1) = -1 then
          match createTagsForEntry f w opt s filename with
          | none => none
          | some r =>
            match iLoop f w opt r.depth rest with
            | none => none
            | some evs =>
              some (Event.openTagFile :: r.events ++
                    Event.closeTagFile false :: Event.completed :: Event.flush :: evs)
        else if sizeField.getD (-1) < 0 then
          none
        else
          match freadBytes (sizeField.getD (-1)).toNat rest with
          | none => none
          | some (bs, rest2) =>
            match iLoop f w opt s rest2 with
            | none => none
            | some evs =>
              some (Event.openTagFile :: Event.parsedMio filename bs ::
                    Event.closeTagFile false :: Event.completed :: Event.flush :: evs)

/-- interactiveLoop (main.c, lines 496-563): announce the program identity,
flush, then run the request loop. -/
def interactiveLoop (fuel : Nat) (w : World) (opt : Options)
    (stdin : List InItem) : Option (List Event) :=
  match iLoop fuel w opt 0 stdin with
  | none => none
  | some evs => some (Event.program :: Event.flush :: evs)

/-- The first string of the safe_vars array in isSafeVar (main.c). -/
def safeVarHead : String := "BASH_FUNC_module()="

/-- Faithful model of isSafeVar (main.c, lines 566-580).  The C loop
initialises sv to the FIRST string of the safe_vars array and then
increments sv as a CHARACTER pointer, so the successive comparisons range
over the suffixes of that single string; the walk returns true no later
than the empty suffix, where strncmp (var, sv, 0) is 0 for every var.  The
second array element and the NULL sentinel are never examined. -/
def isSafeVar (var : String) : Bool :=
  (List.range (safeVarHead.length + 1)).any
    (fun i => List.isPrefixOf (safeVarHead.toList.drop i) var.toList)

/-- The per-entry body of the sanitizer loop (main.c, lines 600-616): find
the first '=' (strchr); if the value after it begins with the four
characters "() \x7b" and the entry is not a safe variable, warn (with the
original entry) and truncate the value to empty.  Returns the resulting
entry and whether a warning was emitted. -/
def sanitizeEntry (e : String) : String × Bool :=
  if e.toList.findIdx (fun c => c == '=') = e.toList.length then (e, false)
  else if List.isPrefixOf "() \x7b".toList
      (e.toList.drop (e.toList.findIdx (fun c => c == '=') + 1)) then
    (if isSafeVar e then (e, false)
     else (String.mk (e.toList.take (e.toList.findIdx (fun c => c == '=') + 1)), true))
  else (e, false)

/-- sanitizeEnviron (main.c, lines 582-617) over an environment table:
returns the table after the pass together with the list of entries that
were warned about (in their original, untruncated form). -/
def sanitizeEnviron (env : List String) : List String × List String :=
  (env.map (fun e => (sanitizeEntry e).1),
   env.filter (fun e => (sanitizeEntry e).2))

/-- Events emitted by the walker itself (classification diagnostics, parse
dispatches): no stream I/O, no tag store operation, no fatal error. -/
def walkEvent : Event → Bool
  | Event.statQuery _ => true
  | Event.excluded _ => true
  | Event.ignoredSymlink _ => true
  | Event.warnCannotOpen _ => true
  | Event.ignoredRecursiveLink _ => true
  | Event.ignoredDirectory _ => true
  | Event.depthExceeded _ _ _ => true
  | Event.recursing _ => true
  | Event.warnCannotRecurse _ => true
  | Event.ignoredSpecial _ => true
  | Event.parsed _ => true
  | _ => false

def isFlushEv : Event → Bool
  | Event.flush => true
  | _ => false

def isTermEv : Event → Bool
  | Event.terminator _ => true
  | _ => false

def nonFatalEv : Event → Bool
  | Event.fatal _ => false
  | _ => true

def isStatQueryEv : Event → Bool
  | Event.statQuery _ => true
  | _ => false

def isParsedEv : Event → Bool
  | Event.parsed _ => true
  | _ => false

def isDepthExceededEv : Event → Bool
  | Event.depthExceeded _ _ _ => true
  | _ => false

/-- The dispatch paths of a directory listing: the non-dot entries, each
mapped to the path the readdir loop classifies it under - the bare entry
name when the directory is ".", the directory name joined with the entry
name by the path separator otherwise. -/
def childPaths (dirName : String) (l : List String) : List String :=
  (l.filter (fun e => decide (e ≠ "." ∧ e ≠ ".."))).map
    (fun e => if dirName = "." then e else combinePathAndFile dirName e)

/-- The per-entry resize results of classifying each name, every call made
at recursion state `s` (justified by the balance theorem: the walker
restores the recursion counter on every path). -/
def entryResizes (fuel : Nat) (w : World) (opt : Options) (s : Nat) :
    List String → Option (List Bool)
  | [] => some []
  | n :: rest =>
    match createTagsForEntry fuel w opt s n with
    | none => none
    | some r =>
      match entryResizes fuel w opt s rest with
      | none => none
      | some bs => some (r.resize :: bs)

/-- Spec-side enumeration for the resize-flag claim: the per-entry resize
results of every entry resolved from the active sources (positional
arguments, list file, filter input, implicit recursion root), in processing
order; to be compared with the flag batchMakeTags passes to closeTagFile. -/
def batchEntryResizes (fuel : Nat) (w : World) (opt : Options) (s : Nat)
    (args : List String) : Option (List Bool) :=
  let files := !args.isEmpty || opt.fileList.isSome || opt.filter
  match entryResizes fuel w opt s args with
  | none => none
  | some asr =>
    match (match opt.fileList with
           | none => some []
           | some fname =>
             if fname = "-" then entryResizes fuel w opt s w.stdinArgs
             else match w.listFile fname with
                  | none => none
                  | some entries => entryResizes fuel w opt s entries) with
    | none => none
    | some bsr =>
      match (if opt.filter then
               entryResizes fuel w opt s (if opt.fileList = some "-" then [] else w.stdinArgs)
             else some []) with
      | none => none
      | some csr =>
        match (if !files && opt.recurse then
                 (recurseIntoDirectory fuel w opt s ".").map (fun r => [r.resize])
               else some []) with
        | none => none
        | some dsr => some (asr ++ bsr ++ csr ++ dsr)

/-! Concrete worlds used to instantiate the theorems.
`Options` field order: recurse, maxRecursionDepth, followLinks, filter,
filterTerminator, fileList, printLanguage, etags, etagsIncludeSet.
`World` field order: stat, isExcludedFile, isRecursiveLink, opendirOk,
readdir, findfirstResults, parseFile, filesRequired, listFile, stdinArgs. -/

/-- A world with two directories: "d" is a recursive link, "dd" is not. -/
def wC2 : World :=
  ⟨fun n => if n = "d" ∨ n = "dd" then ⟨true, false, true, false⟩
            else ⟨false, false, false, false⟩,
   fun _ => false, fun n => n == "d", fun _ => true, fun _ => [], fun _ => [],
   fun _ => false, false, fun _ => none, []⟩

/-- Recursion enabled with maximum depth 0: every directory entry exceeds it. -/
def optC2 : Options := ⟨true, 0, false, false, none, none, false, false, false⟩

/-- A world where directory "d" holds one regular file "f" whose parse
reports a resize. -/
def wC3 : World :=
  ⟨fun n => if n = "d" then ⟨true, false, true, false⟩
            else if n = "d/f" then ⟨true, false, false, true⟩
            else ⟨false, false, false, false⟩,
   fun _ => false, fun _ => false, fun _ => true,
   fun n => if n = "d" then ["f"] else [],
   fun _ => [], fun n => n == "d/f", false, fun _ => none, []⟩

def optC3 : Options := ⟨true, 2, false, false, none, none, false, false, false⟩

/-- Two regular files "a" and "b"; parsing "b" reports a resize. -/
def wC4 : World :=
  ⟨fun n => if n = "a" ∨ n = "b" then ⟨true, false, false, true⟩
            else ⟨false, false, false, false⟩,
   fun _ => false, fun _ => false, fun _ => true, fun _ => [], fun _ => [],
   fun n => n == "b", false, fun _ => none, []⟩

def optC4 : Options := ⟨false, 5, false, false, none, none, false, false, false⟩

def evsC4 : List Event :=
  [Event.openTagFile, Event.statQuery "a", Event.parsed "a",
   Event.statQuery "b", Event.parsed "b", Event.closeTagFile true]

/-- A world for the interactive scenarios (a virtual parse touches nothing). -/
def wI : World :=
  ⟨fun _ => ⟨false, false, false, false⟩, fun _ => false, fun _ => false,
   fun _ => true, fun _ => [], fun _ => [], fun _ => false, false,
   fun _ => none, []⟩

def optI : Options := ⟨false, 5, false, false, none, none, false, false, false⟩

/-- The ten payload bytes of the interactive scenario. -/
def bsC5 : List Nat := [0, 1, 2, 3, 4, 5, 6, 7, 8, 9]

/-- A world that requires file input. -/
def wC7a : World :=
  ⟨fun _ => ⟨false, false, false, false⟩, fun _ => false, fun _ => false,
   fun _ => true, fun _ => [], fun _ => [], fun _ => false, true,
   fun _ => none, []⟩

/-- A world that does not require file input, with an empty current
directory. -/
def wC7c : World :=
  ⟨fun n => if n = "." then ⟨true, false, true, false⟩
            else ⟨false, false, false, false⟩,
   fun _ => false, fun _ => false, fun _ => true, fun _ => [], fun _ => [],
   fun _ => false, false, fun _ => none, []⟩

def optC7 : Options := ⟨false, 5, false, false, none, none, false, false, false⟩

def optC7c : Options := ⟨true, 5, false, false, none, none, false, false, false⟩

/-- The listing of "." is [".", "..", "x"] (dot entries first, as readdir
usually reports them); "sub" holds entry "y"; both real children are
regular files. -/
def wC9 : World :=
  ⟨fun n => if n = "x" ∨ n = "sub/y" then ⟨true, false, false, true⟩
            else ⟨false, false, false, false⟩,
   fun _ => false, fun _ => false, fun _ => true,
   fun n => if n = "." then [".", "..", "x"]
            else if n = "sub" then ["y"] else [],
   fun _ => [], fun _ => false, false, fun _ => none, []⟩

def optC9 : Options := ⟨true, 5, false, false, none, none, false, false, false⟩

/-- Two regular files "p" and "q" named by filter input. -/
def wC10 : World :=
  ⟨fun n => if n = "p" ∨ n = "q" then ⟨true, false, false, true⟩
            else ⟨false, false, false, false⟩,
   fun _ => false, fun _ => false, fun _ => true, fun _ => [], fun _ => [],
   fun _ => false, false, fun _ => none, []⟩

/-- Filter mode with a configured terminator "T". -/
def optC10 : Options := ⟨false, 5, false, true, some "T", none, false, false, false⟩

/-! Shared lemmas. -/

/-- Invariant of the walker: every terminating call restores the recursion
counter (enter and exit balanced on every path) and emits only walker
events. -/
theorem walker_inv (fuel : Nat) :
    (∀ w opt s name r, createTagsForEntry fuel w opt s name = some r →
        r.depth = s ∧ r.events.all walkEvent = true) ∧
    (∀ w opt s name r, recurseIntoDirectory fuel w opt s name = some r →
        r.depth = s ∧ r.events.all walkEvent = true) ∧
    (∀ w opt s name r, recurseUsingOpendir fuel w opt s name = some r →
        r.depth = s ∧ r.events.all walkEvent = true) ∧
    (∀ w opt s dirName l acc r, goChildren fuel w opt s dirName l acc = some r →
        r.depth = s ∧ r.events.all walkEvent = true) := by
  induction fuel with
  | zero =>
    refine ⟨?_, ?_, ?_, ?_⟩
    · intro w opt s name r h
      simp [createTagsForEntry] at h
    · intro w opt s name r h
      simp [recurseIntoDirectory] at h
    · intro w opt s name r h
      simp [recurseUsingOpendir] at h
    · intro w opt s dirName l acc r h
      induction l generalizing s acc r with
      | nil =>
        rw [goChildren] at h
        cases h
        exact ⟨rfl, rfl⟩
      | cons e rest ih2 =>
        rw [goChildren] at h
        split_ifs at h
        · exact ih2 _ _ _ h
        · simp [createTagsForEntry] at h
        · simp [createTagsForEntry] at h
  | succ f ih =>
    obtain ⟨ihA, ihB, ihC, ihD⟩ := ih
    have hA : ∀ w opt s name r, createTagsForEntry (f + 1) w opt s name = some r →
        r.depth = s ∧ r.events.all walkEvent = true := by
      intro w opt s name r h
      rw [createTagsForEntry] at h
      split_ifs at h
      · cases h; exact ⟨rfl, rfl⟩
      · cases h; exact ⟨rfl, rfl⟩
      · cases h; exact ⟨rfl, rfl⟩
      · cases hrec : recurseIntoDirectory f w opt s name with
        | none => rw [hrec] at h; exact absurd h (by simp)
        | some rd =>
          rw [hrec] at h
          cases h
          obtain ⟨hd, he⟩ := ihB w opt s name rd hrec
          exact ⟨hd, by simp [List.all_cons, walkEvent, he]⟩
      · cases h; exact ⟨rfl, rfl⟩
      · cases h; exact ⟨rfl, rfl⟩
    have hB : ∀ w opt s name r, recurseIntoDirectory (f + 1) w opt s name = some r →
        r.depth = s ∧ r.events.all walkEvent = true := by
      intro w opt s name r h
      rw [recurseIntoDirectory] at h
      split_ifs at h
      · cases h; exact ⟨by simp, rfl⟩
      · cases h; exact ⟨by simp, rfl⟩
      · cases h; exact ⟨by simp, rfl⟩
      · cases hrec : recurseUsingOpendir f w opt (s + 1) name with
        | none => rw [hrec] at h; exact absurd h (by simp)
        | some rd =>
          rw [hrec] at h
          cases h
          obtain ⟨hd, he⟩ := ihC w opt (s + 1) name rd hrec
          refine ⟨?_, by simp [List.all_cons, walkEvent, he]⟩
          simp [hd]
    have hC : ∀ w opt s name r, recurseUsingOpendir (f + 1) w opt s name = some r →
        r.depth = s ∧ r.events.all walkEvent = true := by
      intro w opt s name r h
      rw [recurseUsingOpendir] at h
      split_ifs at h
      · cases h; exact ⟨rfl, rfl⟩
      · exact ihD w opt s name (w.readdir name) false r h
    have hD : ∀ w opt s dirName l acc r, goChildren (f + 1) w opt s dirName l acc = some r →
        r.depth = s ∧ r.events.all walkEvent = true := by
      intro w opt s dirName l acc r h
      induction l generalizing s acc r with
      | nil =>
        rw [goChildren] at h
        cases h
        exact ⟨rfl, rfl⟩
      | cons e rest ih2 =>
        rw [goChildren] at h
        split_ifs at h
        · exact ih2 _ _ _ h
        · split at h
          · simp at h
          · next r1 hc =>
            split at h
            · simp at h
            · next r2 hg =>
              cases h
              obtain ⟨h1d, h1e⟩ := hA w opt s _ r1 hc
              obtain ⟨h2d, h2e⟩ := ih2 _ _ _ hg
              exact ⟨by rw [h2d, h1d], by simp [List.all_append, h1e, h2e]⟩
        · split at h
          · simp at h
          · next r1 hc =>
            split at h
            · simp at h
            · next r2 hg =>
              cases h
              obtain ⟨h1d, h1e⟩ := hA w opt s _ r1 hc
              obtain ⟨h2d, h2e⟩ := ih2 _ _ _ hg
              exact ⟨by rw [h2d, h1d], by simp [List.all_append, h1e, h2e]⟩
    exact ⟨hA, hB, hC, hD⟩

/-- Every terminating classification emits the stat query for its own path
first: eStat is called before the branch chain runs. -/
theorem createTagsForEntry_head (fuel : Nat) (w : World) (opt : Options)
    (s : Nat) (name : String) (r : EntryResult)
    (h : createTagsForEntry fuel w opt s name = some r) :
    ∃ tl, r.events = Event.statQuery name :: tl := by
  cases fuel with
  | zero => simp [createTagsForEntry] at h
  | succ f =>
    rw [createTagsForEntry] at h
    split_ifs at h
    · cases h; exact ⟨_, rfl⟩
    · cases h; exact ⟨_, rfl⟩
    · cases h; exact ⟨_, rfl⟩
    · split at h
      · simp at h
      · next rd hrec => cases h; exact ⟨_, rfl⟩
    · cases h; exact ⟨_, rfl⟩
    · cases h; exact ⟨_, rfl⟩

/-- Elements of an all-walker event list never satisfy a predicate that is
false on walker events. -/
theorem walk_countP_zero (l : List Event) (h : l.all walkEvent = true)
    (p : Event → Bool) (hp : ∀ e, walkEvent e = true → p e = false) :
    l.countP p = 0 := by
  rw [List.countP_eq_zero]
  intro a ha
  have hw := List.all_eq_true.mp h a ha
  simp [hp a hw]

/-- A list of walker events contains no closeTagFile operation. -/
theorem walk_not_closeTag (l : List Event) (h : l.all walkEvent = true)
    (b : Bool) : Event.closeTagFile b ∉ l := by
  intro hmem
  have hw := List.all_eq_true.mp h _ hmem
  simp [walkEvent] at hw

/-- A list of walker events contains no fatal diagnostic. -/
theorem walk_not_fatal (l : List Event) (h : l.all walkEvent = true)
    (m : String) : Event.fatal m ∉ l := by
  intro hmem
  have hw := List.all_eq_true.mp h _ hmem
  simp [walkEvent] at hw

/-- The argument loop computes the OR fold of the per-entry results, leaves
the recursion counter unchanged, and emits walker events only. -/
theorem args_or (fuel : Nat) (w : World) (opt : Options) :
    ∀ (l : List String) (s : Nat) (acc : Bool) (r : EntryResult),
      createTagsForArgs fuel w opt s l acc = some r →
      ∃ bs, entryResizes fuel w opt s l = some bs ∧
        r.resize = (acc || bs.any id) ∧ r.depth = s ∧
        r.events.all walkEvent = true := by
  intro l
  induction l with
  | nil =>
    intro s acc r h
    rw [createTagsForArgs] at h
    cases h
    exact ⟨[], rfl, by simp, rfl, rfl⟩
  | cons a rest ih =>
    intro s acc r h
    rw [createTagsForArgs] at h
    split at h
    · simp at h
    · next r1 hc =>
      split at h
      · simp at h
      · next r2 hg =>
        cases h
        obtain ⟨h1d, h1e⟩ := (walker_inv fuel).1 w opt s a r1 hc
        rw [h1d] at hg
        obtain ⟨bs, hbs, hres, hdep, hev⟩ := ih s (acc || r1.resize) r2 hg
        refine ⟨r1.resize :: bs, ?_, ?_, hdep, ?_⟩
        · rw [entryResizes, hc, hbs]
        · simp [hres, List.any_cons, Bool.or_assoc]
        · simp [List.all_append, h1e, hev]

/-- The file-input loop computes the OR fold of the per-entry results and
leaves the recursion counter unchanged; outside filter mode it emits walker
events only. -/
theorem fileInput_or (fuel : Nat) (w : World) (opt : Options) (flt : Bool) :
    ∀ (l : List String) (s : Nat) (acc : Bool) (r : EntryResult),
      createTagsFromFileInput fuel w opt s l flt acc = some r →
      ∃ bs, entryResizes fuel w opt s l = some bs ∧
        r.resize = (acc || bs.any id) ∧ r.depth = s ∧
        (flt = false → r.events.all walkEvent = true) := by
  intro l
  induction l with
  | nil =>
    intro s acc r h
    rw [createTagsFromFileInput] at h
    cases h
    exact ⟨[], rfl, by simp, rfl, fun _ => rfl⟩
  | cons a rest ih =>
    intro s acc r h
    rw [createTagsFromFileInput] at h
    split at h
    · simp at h
    · next r1 hc =>
      split at h
      · simp at h
      · next r2 hg =>
        cases h
        obtain ⟨h1d, h1e⟩ := (walker_inv fuel).1 w opt s a r1 hc
        rw [h1d] at hg
        obtain ⟨bs, hbs, hres, hdep, hev⟩ := ih s (acc || r1.resize) r2 hg
        refine ⟨r1.resize :: bs, ?_, ?_, hdep, ?_⟩
        · rw [entryResizes, hc, hbs]
        · simp [hres, List.any_cons, Bool.or_assoc]
        · intro hflt
          subst hflt
          simp [List.all_append, h1e, hev rfl]

/-- In filter mode, every processed entry contributes exactly one flush, and
exactly one terminator when one is configured. -/
theorem fileInput_counts (fuel : Nat) (w : World) (opt : Options) :
    ∀ (l : List String) (s : Nat) (acc : Bool) (r : EntryResult),
      createTagsFromFileInput fuel w opt s l true acc = some r →
      r.events.countP isFlushEv = l.length ∧
      r.events.countP isTermEv =
        (match opt.filterTerminator with
         | some _ => l.length
         | none => 0) := by
  intro l
  induction l with
  | nil =>
    intro s acc r h
    rw [createTagsFromFileInput] at h
    cases h
    cases opt.filterTerminator <;> simp
  | cons a rest ih =>
    intro s acc r h
    rw [createTagsFromFileInput] at h
    split at h
    · simp at h
    · next r1 hc =>
      split at h
      · simp at h
      · next r2 hg =>
        cases h
        obtain ⟨-, h1e⟩ := (walker_inv fuel).1 w opt s a r1 hc
        obtain ⟨hflush, hterm⟩ := ih _ _ _ hg
        have hz1 : r1.events.countP isFlushEv = 0 :=
          walk_countP_zero _ h1e _
            (by intro ev hev; cases ev <;> simp_all [walkEvent, isFlushEv])
        have hz2 : r1.events.countP isTermEv = 0 :=
          walk_countP_zero _ h1e _
            (by intro ev hev; cases ev <;> simp_all [walkEvent, isTermEv])
        cases hft : opt.filterTerminator with
        | none =>
          rw [hft] at hterm
          constructor
          · simp [List.countP_append, List.countP_cons, hz1, hflush, hft,
                  isFlushEv]
          · simp [List.countP_append, List.countP_cons, hz2, hterm, hft,
                  isTermEv]
        | some t =>
          rw [hft] at hterm
          constructor
          · simp [List.countP_append, List.countP_cons, hz1, hflush, hft,
                  isFlushEv]
          · simp [List.countP_append, List.countP_cons, hz2, hterm, hft,
                  isTermEv]

/-- fread returns exactly the requested bytes when they are all available. -/
theorem fread_exact : ∀ (bs : List Nat) (rest : List InItem),
    freadBytes bs.length (bs.map InItem.byte ++ rest) = some (bs, rest) := by
  intro bs
  induction bs with
  | nil => intro rest; rfl
  | cons b bs ih => intro rest; simp [freadBytes, ih]

/-- The character-pointer walk of isSafeVar reaches the empty suffix of its
first safe variable, and strncmp with length 0 matches everything: the
function accepts every variable. -/
theorem isSafeVar_true (v : String) : isSafeVar v = true := by
  unfold isSafeVar
  rw [List.any_eq_true]
  refine ⟨safeVarHead.length, ?_, ?_⟩
  · simp
  · have hdrop : safeVarHead.toList.drop safeVarHead.length = [] := by decide
    rw [hdrop]
    simp [List.isPrefixOf]

/-- Because isSafeVar accepts everything, the sanitizer body leaves every
entry unchanged and warns about nothing. -/
theorem sanitizeEntry_id (e : String) : sanitizeEntry e = (e, false) := by
  unfold sanitizeEntry
  split_ifs with h1 h2 h3
  · rfl
  · rfl
  · exact absurd (isSafeVar_true e) h3
  · rfl

/-! Claim theorems. -/

/-- C1: the claim (and the spec scenario) says an environment entry whose
value begins with "() \x7b" and whose name is not on the allow-list is
blanked with a warning.  The code never blanks anything: the isSafeVar loop
increments sv as a character pointer over its first array element instead of
indexing the array, so the comparison reaches the empty suffix and
strncmp (var, sv, 0) = 0 accepts every name.  This theorem evaluates the
sanitizer at the spec scenario entry MYFUNC=() \x7b :; \x7d (left unchanged,
no warning) and shows the pass is the identity on every environment. -/
theorem c1_sanitizer_eval :
    sanitizeEnviron ["MYFUNC=() \x7b :; \x7d"] =
      (["MYFUNC=() \x7b :; \x7d"], []) ∧
    (∀ env, sanitizeEnviron env = (env, [])) := by
  have hall : ∀ env, sanitizeEnviron env = (env, []) := by
    intro env
    simp [sanitizeEnviron, sanitizeEntry_id]
  exact ⟨hall _, hall⟩

/-- C2 counterexample: directory "d" is a recursive link; entering it at
depth 0 with configured maximum 0 raises the recursion counter above the
maximum, yet recurseIntoDirectory refuses with the recursive-link
diagnostic and emits no depth-exceeded diagnostic, contrary to the claim
that every such directory gets a depth-exceeded diagnostic. -/
theorem c2_counterexample :
    optC2.maxRecursionDepth < 0 + 1 ∧
    recurseIntoDirectory 5 wC2 optC2 0 "d" =
      some ⟨false, [Event.ignoredRecursiveLink "d"], 0⟩ ∧
    ([Event.ignoredRecursiveLink "d"]).all (fun e => !isDepthExceededEv e) = true := by
  refine ⟨by simp [optC2], ?_, by decide⟩
  simp [recurseIntoDirectory, wC2, optC2]

/-- C2 (amended): a directory whose entry would raise the recursion counter
above the configured maximum is always refused with resize = false, no
child is classified or dispatched, and the counter is restored on return
(on every path, refusals included); the depth-exceeded diagnostic is the
one emitted whenever the two earlier refusals (recursive link, recursion
disabled) do not apply. -/
theorem c2_amended (fuel : Nat) (w : World) (opt : Options) (s : Nat)
    (name : String) (r : EntryResult)
    (h : recurseIntoDirectory fuel w opt s name = some r) :
    r.depth = s ∧
    (opt.maxRecursionDepth < s + 1 →
      r.resize = false ∧
      r.events.all (fun e => !isStatQueryEv e && !isParsedEv e) = true ∧
      (w.isRecursiveLink name = false → opt.recurse = true →
        r.events = [Event.depthExceeded name (s + 1) opt.maxRecursionDepth])) := by
  refine ⟨((walker_inv fuel).2.1 w opt s name r h).1, ?_⟩
  intro hdepth
  cases fuel with
  | zero => simp [recurseIntoDirectory] at h
  | succ f =>
    rw [recurseIntoDirectory] at h
    split_ifs at h with h1 h2
    · cases h
      refine ⟨rfl, rfl, ?_⟩
      intro hl _
      simp [h1] at hl
    · cases h
      refine ⟨rfl, rfl, ?_⟩
      intro _ hr
      simp [hr] at h2
    · cases h
      exact ⟨rfl, rfl, fun _ _ => rfl⟩

/-- C2 witness: a concrete run refused for depth, via the amended theorem. -/
theorem c2_witness :
    recurseIntoDirectory 3 wC2 optC2 0 "dd" =
      some ⟨false, [Event.depthExceeded "dd" 1 0], 0⟩ ∧
    ((⟨false, [Event.depthExceeded "dd" 1 0], 0⟩ : EntryResult).depth = 0 ∧
     (optC2.maxRecursionDepth < 0 + 1 →
       (⟨false, [Event.depthExceeded "dd" 1 0], 0⟩ : EntryResult).resize = false ∧
       (⟨false, [Event.depthExceeded "dd" 1 0], 0⟩ : EntryResult).events.all
         (fun e => !isStatQueryEv e && !isParsedEv e) = true ∧
       (wC2.isRecursiveLink "dd" = false → optC2.recurse = true →
         (⟨false, [Event.depthExceeded "dd" 1 0], 0⟩ : EntryResult).events =
           [Event.depthExceeded "dd" (0 + 1) optC2.maxRecursionDepth]))) := by
  have hrun : recurseIntoDirectory 3 wC2 optC2 0 "dd" =
      some ⟨false, [Event.depthExceeded "dd" 1 0], 0⟩ := by
    simp [recurseIntoDirectory, wC2, optC2]
  exact ⟨hrun, c2_amended 3 wC2 optC2 0 "dd" _ hrun⟩

/-- C3 counterexample: for directory "d" (not excluded, not a symlink,
existing) holding one regular child "d/f" whose parse reports a resize, the
classifier takes the directory branch, "d" itself is never dispatched to
parseFile, and yet the call returns resize = true - refuting the claim that
every branch other than the parse dispatch returns resize = false. -/
theorem c3_counterexample :
    wC3.isExcludedFile "d" = false ∧
    (wC3.stat "d").isDirectory = true ∧
    createTagsForEntry 10 wC3 optC3 0 "d" =
      some ⟨true, [Event.statQuery "d", Event.recursing "d",
                   Event.statQuery "d/f", Event.parsed "d/f"], 0⟩ ∧
    Event.parsed "d" ∉ [Event.statQuery "d", Event.recursing "d",
                        Event.statQuery "d/f", Event.parsed "d/f"] := by
  refine ⟨rfl, rfl, ?_, by decide⟩
  simp [createTagsForEntry, recurseIntoDirectory, recurseUsingOpendir,
        goChildren, wC3, optC3, combinePathAndFile]

/-- C3 (amended): the classifier stats the path once, up front, then takes
exactly one branch in first-match-wins order - excluded, symlink with
link-following disabled, missing, directory (delegated to the recursion,
whose accumulated resize result it returns), special file, parse dispatch;
every branch other than the directory delegation (4) and the parse dispatch
(6) returns resize = false. -/
theorem c3_amended (fuel : Nat) (w : World) (opt : Options) (s : Nat)
    (name : String) (r : EntryResult)
    (h : createTagsForEntry (fuel + 1) w opt s name = some r) :
    (w.isExcludedFile name = true →
      r = ⟨false, [Event.statQuery name, Event.excluded name], s⟩) ∧
    (w.isExcludedFile name = false →
      ((w.stat name).isSymbolicLink && !opt.followLinks) = true →
      r = ⟨false, [Event.statQuery name, Event.ignoredSymlink name], s⟩) ∧
    (w.isExcludedFile name = false →
      ((w.stat name).isSymbolicLink && !opt.followLinks) = false →
      (w.stat name).fsExists = false →
      r = ⟨false, [Event.statQuery name, Event.warnCannotOpen name], s⟩) ∧
    (w.isExcludedFile name = false →
      ((w.stat name).isSymbolicLink && !opt.followLinks) = false →
      (w.stat name).fsExists = true →
      (w.stat name).isDirectory = true →
      ∃ rd, recurseIntoDirectory fuel w opt s name = some rd ∧
        r = ⟨rd.resize, Event.statQuery name :: rd.events, s⟩) ∧
    (w.isExcludedFile name = false →
      ((w.stat name).isSymbolicLink && !opt.followLinks) = false →
      (w.stat name).fsExists = true →
      (w.stat name).isDirectory = false →
      (w.stat name).isNormalFile = false →
      r = ⟨false, [Event.statQuery name, Event.ignoredSpecial name], s⟩) ∧
    (w.isExcludedFile name = false →
      ((w.stat name).isSymbolicLink && !opt.followLinks) = false →
      (w.stat name).fsExists = true →
      (w.stat name).isDirectory = false →
      (w.stat name).isNormalFile = true →
      r = ⟨w.parseFile name, [Event.statQuery name, Event.parsed name], s⟩) := by
  rw [createTagsForEntry] at h
  split_ifs at h with h1 h2 h3 h4 h5
  · cases h
    refine ⟨fun _ => rfl, ?_, ?_, ?_, ?_, ?_⟩ <;> (intros; simp_all)
  · cases h
    refine ⟨?_, fun _ _ => rfl, ?_, ?_, ?_, ?_⟩ <;> (intros; simp_all)
  · cases h
    refine ⟨?_, ?_, fun _ _ _ => rfl, ?_, ?_, ?_⟩ <;> (intros; simp_all)
  · split at h
    · simp at h
    · next rd hrec =>
      cases h
      have hd := ((walker_inv fuel).2.1 w opt s name rd hrec).1
      refine ⟨?_, ?_, ?_, ?_, ?_, ?_⟩
      · intros; simp_all
      · intros; simp_all
      · intros; simp_all
      · intro _ _ _ _
        exact ⟨rd, hrec, by simp [hd]⟩
      · intros; simp_all
      · intros; simp_all
  · cases h
    refine ⟨?_, ?_, ?_, ?_, fun _ _ _ _ _ => rfl, ?_⟩ <;> (intros; simp_all)
  · cases h
    refine ⟨?_, ?_, ?_, ?_, ?_, fun _ _ _ _ _ => rfl⟩ <;> (intros; simp_all)

/-- C3 witness: the directory branch of the amended theorem at a concrete
world. -/
theorem c3_witness :
    ∃ rd, recurseIntoDirectory 9 wC3 optC3 0 "d" = some rd ∧
      (⟨true, [Event.statQuery "d", Event.recursing "d", Event.statQuery "d/f",
               Event.parsed "d/f"], 0⟩ : EntryResult) =
        ⟨rd.resize, Event.statQuery "d" :: rd.events, 0⟩ := by
  have hrun : createTagsForEntry 10 wC3 optC3 0 "d" =
      some ⟨true, [Event.statQuery "d", Event.recursing "d",
                   Event.statQuery "d/f", Event.parsed "d/f"], 0⟩ := by
    simp [createTagsForEntry, recurseIntoDirectory, recurseUsingOpendir,
          goChildren, wC3, optC3, combinePathAndFile]
  exact (c3_amended 9 wC3 optC3 0 "d" _ hrun).2.2.2.1 rfl
    (by simp [wC3, optC3]) rfl rfl

/-- Exactly one closeTagFile operation occurs in a batch trace of the shape
the main path produces, so its argument is determined. -/
theorem closeTag_mem_unique (E1 E2 E3 E4 : List Event)
    (h1 : E1.all walkEvent = true) (h2 : E2.all walkEvent = true)
    (h3 : E3.all walkEvent = true) (h4 : E4.all walkEvent = true)
    (b c : Bool)
    (hc : Event.closeTagFile c ∈
      [Event.openTagFile] ++ E1 ++ E2 ++ E3 ++ E4 ++ [Event.closeTagFile b]) :
    c = b := by
  rcases List.mem_append.mp hc with h | hl
  · rcases List.mem_append.mp h with h | h4m
    · rcases List.mem_append.mp h with h | h3m
      · rcases List.mem_append.mp h with h | h2m
        · rcases List.mem_append.mp h with h0 | h1m
          · simp at h0
          · exact absurd h1m (walk_not_closeTag _ h1 c)
        · exact absurd h2m (walk_not_closeTag _ h2 c)
      · exact absurd h3m (walk_not_closeTag _ h3 c)
    · exact absurd h4m (walk_not_closeTag _ h4 c)
  · simpa using hl

/-- C4: outside filter and print-language modes, a terminating, fatal-free
batch run passes closeTagFile exactly the logical OR of the per-entry
results of every entry resolved from the active sources (positional
arguments, list file, filter input, implicit recursion root), and no later
entry can unset a flag once a prefix of the results has set it. -/
theorem c4_resize_or (fuel : Nat) (w : World) (opt : Options) (s : Nat)
    (args : List String) (evs : List Event)
    (hfil : opt.filter = false) (hpl : opt.printLanguage = false)
    (hrun : batchMakeTags fuel w opt s args = some evs)
    (hnf : evs.all nonFatalEv = true) (hne : evs ≠ []) :
    ∃ rs, batchEntryResizes fuel w opt s args = some rs ∧
      Event.closeTagFile (rs.any id) ∈ evs ∧
      (∀ b, Event.closeTagFile b ∈ evs → b = rs.any id) ∧
      (∀ p q, rs = p ++ q → p.any id = true → rs.any id = true) := by
  simp only [batchMakeTags, hfil, hpl] at hrun
  simp only [Bool.or_false, Bool.not_false, Bool.and_self, Bool.false_eq_true,
    if_true, if_false] at hrun
  split_ifs at hrun with hc1 hc2 hroot
  · cases hrun
    simp [nonFatalEv] at hnf
  · cases hrun
    exact absurd rfl hne
  · -- implicit recursion root active
    split at hrun
    · simp at hrun
    · next r1 ha =>
      obtain ⟨asr, hasr, hres1, hdep1, hev1⟩ := args_or fuel w opt args s false r1 ha
      rcases hfl : opt.fileList with _ | fname
      · rw [hfl] at hrun hroot
        simp only [] at hrun
        simp only [Option.isSome_none, Bool.or_false, Bool.and_eq_true,
          Bool.not_eq_true', Bool.not_eq_false] at hroot
        obtain ⟨hargs0, hrec⟩ := hroot
        have hargs1 : args.isEmpty = true := by simpa using hargs0
        have hargsnil : args = [] := List.isEmpty_iff.mp hargs1
        subst hargsnil
        have hasr0 : asr = [] := by
          rw [entryResizes] at hasr
          exact (Option.some_inj.mp hasr).symm
        subst hasr0
        split at hrun
        · simp at hrun
        · next r4 h4 =>
          cases hrun
          rw [hdep1] at h4
          obtain ⟨hd4, he4⟩ := (walker_inv fuel).2.1 w opt s "." r4 h4
          refine ⟨[r4.resize], ?_, ?_, ?_, ?_⟩
          · simp only [batchEntryResizes, hfil, hfl]
            rw [entryResizes]
            simp [h4, hrec]
          · simp
          · intro b hb
            have hbb := closeTag_mem_unique r1.events [] [] r4.events hev1 rfl rfl he4
              r4.resize b hb
            simpa using hbb
          · intro p q hpq hp
            rw [hpq]
            simp [List.any_append, hp]
      · rw [hfl] at hroot
        simp at hroot
  · -- implicit recursion root inactive
    split at hrun
    · simp at hrun
    · next r1 ha =>
      obtain ⟨asr, hasr, hres1, hdep1, hev1⟩ := args_or fuel w opt args s false r1 ha
      rcases hfl : opt.fileList with _ | fname
      · -- no list file: the only entries are the positional arguments
        rw [hfl] at hrun
        simp only [] at hrun
        cases hrun
        have hrootP : ¬(args = [] ∧ opt.recurse = true) := by
          rintro ⟨hq1, hq2⟩
          subst hq1
          simp [hq2, hfl] at hroot
        refine ⟨asr, ?_, ?_, ?_, ?_⟩
        · simp only [batchEntryResizes, hfil, hfl]
          rw [hasr]
          simp [hrootP]
        · have hx : (false || (false || r1.resize)) = asr.any id := by simp [hres1]
          rw [hx]
          simp
        · intro b hb
          have hbb := closeTag_mem_unique r1.events [] [] [] hev1 rfl rfl rfl
            (false || (false || r1.resize)) b hb
          rw [hbb]
          simp [hres1]
        · intro p q hpq hp
          rw [hpq]
          simp [List.any_append, hp]
      · rw [hfl] at hrun
        simp only [] at hrun
        rcases hlf : createTagsFromListFile fuel w opt r1.depth fname w.stdinArgs
          with _ | (e | rr)
        · rw [hlf] at hrun
          simp at hrun
        · -- fatal: list file could not be opened
          rw [hlf] at hrun
          simp only [] at hrun
          cases hrun
          rw [createTagsFromListFile] at hlf
          split_ifs at hlf with hdash
          · split at hlf
            · simp at hlf
            · simp at hlf
          · split at hlf
            · next hlst =>
              have he : e = [Event.fatal "cannot open list file"] := by
                simpa using hlf.symm
              subst he
              simp [List.all_append, nonFatalEv] at hnf
            · next entries hlst =>
              split at hlf
              · simp at hlf
              · simp at hlf
        · -- list file processed, result rr
          rw [hlf] at hrun
          simp only [] at hrun
          cases hrun
          rw [createTagsFromListFile] at hlf
          split_ifs at hlf with hdash
          · -- list file "-": entries from standard input
            split at hlf
            · simp at hlf
            · next rr2 hstd =>
              have hrr : rr2 = rr := by simpa using hlf
              subst hrr
              rw [hdep1] at hstd
              obtain ⟨bsr, hbsr, hres2, hdep2, hev2⟩ :=
                fileInput_or fuel w opt false w.stdinArgs s false rr2 hstd
              refine ⟨asr ++ bsr, ?_, ?_, ?_, ?_⟩
              · simp only [batchEntryResizes, hfil, hfl]
                rw [hasr]
                simp [hdash, hbsr]
              · have hx : (false || (rr2.resize || r1.resize)) = (asr ++ bsr).any id := by
                  simp [hres1, hres2, List.any_append, Bool.or_comm]
                rw [hx]
                simp
              · intro b hb
                have hbb := closeTag_mem_unique r1.events rr2.events [] [] hev1 (hev2 rfl)
                  rfl rfl (false || (rr2.resize || r1.resize)) b hb
                rw [hbb]
                simp [hres1, hres2, List.any_append, Bool.or_comm]
              · intro p q hpq hp
                rw [hpq]
                simp [List.any_append, hp]
          · -- named list file
            split at hlf
            · simp at hlf
            · next entries hlst =>
              split at hlf
              · simp at hlf
              · next rr2 hffi =>
                have hrr : rr2 = rr := by simpa using hlf
                subst hrr
                rw [hdep1] at hffi
                obtain ⟨bsr, hbsr, hres2, hdep2, hev2⟩ :=
                  fileInput_or fuel w opt false entries s false rr2 hffi
                refine ⟨asr ++ bsr, ?_, ?_, ?_, ?_⟩
                · simp only [batchEntryResizes, hfil, hfl]
                  rw [hasr]
                  simp [hdash, hlst, hbsr]
                · have hx : (false || (rr2.resize || r1.resize)) = (asr ++ bsr).any id := by
                    simp [hres1, hres2, List.any_append, Bool.or_comm]
                  rw [hx]
                  simp
                · intro b hb
                  have hbb := closeTag_mem_unique r1.events rr2.events [] [] hev1 (hev2 rfl)
                    rfl rfl (false || (rr2.resize || r1.resize)) b hb
                  rw [hbb]
                  simp [hres1, hres2, List.any_append, Bool.or_comm]
                · intro p q hpq hp
                  rw [hpq]
                  simp [List.any_append, hp]


/-- C4 witness: a concrete two-argument batch where the second parse reports
a resize, via the theorem. -/
theorem c4_witness :
    batchMakeTags 10 wC4 optC4 0 ["a", "b"] = some evsC4 ∧
    evsC4.all nonFatalEv = true ∧ evsC4 ≠ [] ∧
    (∃ rs, batchEntryResizes 10 wC4 optC4 0 ["a", "b"] = some rs ∧
      Event.closeTagFile (rs.any id) ∈ evsC4 ∧
      (∀ b, Event.closeTagFile b ∈ evsC4 → b = rs.any id) ∧
      (∀ p q, rs = p ++ q → p.any id = true → rs.any id = true)) := by
  have hrun : batchMakeTags 10 wC4 optC4 0 ["a", "b"] = some evsC4 := by
    simp [batchMakeTags, createTagsForArgs, createTagsForEntry, wC4, optC4,
      evsC4, etagsInclude]
  exact ⟨hrun, by decide, by decide,
    c4_resize_or 10 wC4 optC4 0 ["a", "b"] evsC4 rfl rfl hrun (by decide)
      (by decide)⟩

/-- C5: an interactive generate-tags request with explicit size n ≥ 0,
followed by exactly n payload bytes on the input stream, reads exactly
those n bytes into an in-memory buffer, parses them as a virtual file named
by the request filename with no filesystem access to that name (no stat
query, no disk-parse dispatch among the events of the request), then emits
the completed event line and flushes output, leaving the rest of the stream
to the next iteration. -/
theorem c5_virtual_parse (fuel : Nat) (w : World) (opt : Options) (s : Nat)
    (filename : String) (bs : List Nat) (rest : List InItem) (evs : List Event)
    (hrun : iLoop (fuel + 1) w opt s
      (InItem.line (ReqLine.generateTags (some filename) (some (bs.length : Int))) ::
        (bs.map InItem.byte ++ rest)) = some evs) :
    ∃ tail, iLoop fuel w opt s rest = some tail ∧
      evs = Event.openTagFile :: Event.parsedMio filename bs ::
            Event.closeTagFile false :: Event.completed :: Event.flush :: tail ∧
      (∀ p, Event.statQuery p ∉ evs.take 5) ∧
      (∀ p, Event.parsed p ∉ evs.take 5) := by
  rw [iLoop] at hrun
  simp only [Option.getD_some] at hrun
  rw [if_neg (by omega : ¬ ((bs.length : Int) = -1))] at hrun
  rw [if_neg (by omega : ¬ ((bs.length : Int) < 0))] at hrun
  rw [show ((bs.length : Int)).toNat = bs.length by omega] at hrun
  rw [fread_exact] at hrun
  simp only [] at hrun
  cases ht : iLoop fuel w opt s rest with
  | none => rw [ht] at hrun; simp at hrun
  | some tail =>
    rw [ht] at hrun
    simp only [] at hrun
    cases hrun
    refine ⟨tail, rfl, rfl, ?_, ?_⟩
    · intro p; simp
    · intro p; simp

/-- C5 witness: the spec scenario - a request for "x.c" with size 10
followed by exactly ten bytes - through the theorem. -/
theorem c5_witness :
    iLoop 2 wI optI 0
      (InItem.line (ReqLine.generateTags (some "x.c") (some (bsC5.length : Int))) ::
        (bsC5.map InItem.byte ++ [])) =
      some [Event.openTagFile, Event.parsedMio "x.c" bsC5, Event.closeTagFile false,
            Event.completed, Event.flush] ∧
    (∃ tail, iLoop 1 wI optI 0 [] = some tail ∧
      [Event.openTagFile, Event.parsedMio "x.c" bsC5, Event.closeTagFile false,
       Event.completed, Event.flush] =
        Event.openTagFile :: Event.parsedMio "x.c" bsC5 :: Event.closeTagFile false ::
        Event.completed :: Event.flush :: tail ∧
      (∀ p, Event.statQuery p ∉
        ([Event.openTagFile, Event.parsedMio "x.c" bsC5, Event.closeTagFile false,
          Event.completed, Event.flush]).take 5) ∧
      (∀ p, Event.parsed p ∉
        ([Event.openTagFile, Event.parsedMio "x.c" bsC5, Event.closeTagFile false,
          Event.completed, Event.flush]).take 5)) := by
  have hrun : iLoop 2 wI optI 0
      (InItem.line (ReqLine.generateTags (some "x.c") (some (bsC5.length : Int))) ::
        (bsC5.map InItem.byte ++ [])) =
      some [Event.openTagFile, Event.parsedMio "x.c" bsC5, Event.closeTagFile false,
            Event.completed, Event.flush] := by
    simp [iLoop, freadBytes, bsC5]
  exact ⟨hrun, c5_virtual_parse 1 wI optI 0 "x.c" bsC5 [] _ hrun⟩

/-- C6: a non-empty interactive input line that fails to parse as JSON is
fatal with the diagnostic "invalid json": at any recursion state and with
any remaining input the loop stops at once with exactly that event, no
completed event is emitted, and the rest of the stream is never processed;
at the top level the whole session trace is the identity announcement
followed by the fatal diagnostic. -/
theorem c6_invalid_json (fuel : Nat) (w : World) (opt : Options) (s : Nat)
    (rest : List InItem) :
    iLoop (fuel + 1) w opt s (InItem.line ReqLine.badJson :: rest) =
      some [Event.fatal "invalid json"] ∧
    interactiveLoop (fuel + 1) w opt (InItem.line ReqLine.badJson :: rest) =
      some [Event.program, Event.flush, Event.fatal "invalid json"] ∧
    Event.completed ∉ [Event.program, Event.flush, Event.fatal "invalid json"] := by
  refine ⟨?_, ?_, by decide⟩
  · rw [iLoop]
  · rw [interactiveLoop, iLoop]

/-- C7: in batch mode with no positional arguments, no list file and filter
mode off - (a) if the tool requires file input the run fails fatally with
"No files specified"; (b) if not, and neither recursion nor etags-include
is active, the run returns silently without opening the tag store; (c) if
recursion is enabled (and input is not required), the run instead recurses
into the current working directory "." as the implicit default root. -/
theorem c7_no_files (fuel : Nat) (w : World) (opt : Options) (s : Nat)
    (hfl : opt.fileList = none) (hfil : opt.filter = false) :
    (w.filesRequired = true →
      batchMakeTags fuel w opt s [] = some [Event.fatal "No files specified"]) ∧
    (w.filesRequired = false → opt.recurse = false → etagsInclude opt = false →
      batchMakeTags fuel w opt s [] = some []) ∧
    (w.filesRequired = false → opt.recurse = true →
      ∀ r4, recurseIntoDirectory fuel w opt s "." = some r4 →
        batchMakeTags fuel w opt s [] =
          some ((if !opt.printLanguage then [Event.openTagFile] else []) ++ r4.events ++
                (if !opt.printLanguage then [Event.closeTagFile r4.resize] else []))) := by
  refine ⟨?_, ?_, ?_⟩
  · intro hreq
    simp [batchMakeTags, hfl, hfil, hreq]
  · intro hreq hrec het
    simp [batchMakeTags, hfl, hfil, hreq, hrec, het]
  · intro hreq hrec r4 h4
    simp [batchMakeTags, hfl, hfil, hreq, hrec, createTagsForArgs, h4, etagsInclude]

/-- C7 witness: the three cases at concrete worlds - fatal when input is
required, silent return when nothing is active, recursion into "." when
recursion is enabled. -/
theorem c7_witness :
    batchMakeTags 3 wC7a optC7 0 [] = some [Event.fatal "No files specified"] ∧
    batchMakeTags 3 wC7c optC7 0 [] = some [] ∧
    batchMakeTags 5 wC7c optC7c 0 [] =
      some ([Event.openTagFile] ++ [Event.recursing "."] ++ [Event.closeTagFile false]) := by
  have h4 : recurseIntoDirectory 5 wC7c optC7c 0 "." =
      some ⟨false, [Event.recursing "."], 0⟩ := by
    simp [recurseIntoDirectory, recurseUsingOpendir, goChildren, wC7c, optC7c]
  exact ⟨(c7_no_files 3 wC7a optC7 0 rfl rfl).1 rfl,
         (c7_no_files 3 wC7c optC7 0 rfl rfl).2.1 rfl rfl rfl,
         (c7_no_files 5 wC7c optC7c 0 rfl rfl).2.2 rfl rfl
           ⟨false, [Event.recursing "."], 0⟩ h4⟩

/-- C8: "." and ".." are filtered out of every expanded directory child
set: the readdir loop and the findfirst fallback loop behave on any entry
list exactly as on that list with "." and ".." removed (so dot entries are
never classified or dispatched), a listing of only dot entries contributes
nothing, and the wildcard per-entry function refuses "." and ".."
outright - for all directories, including empty ones. -/
theorem c8_dot_filter (fuel : Nat) (w : World) (opt : Options) :
    (∀ l s dirName acc,
      goChildren fuel w opt s dirName l acc =
        goChildren fuel w opt s dirName
          (l.filter (fun e => decide (e ≠ "." ∧ e ≠ ".."))) acc) ∧
    (∀ s dirName acc, goChildren fuel w opt s dirName [".", ".."] acc =
        some ⟨acc, [], s⟩) ∧
    (∀ s pattern dirLength,
      createTagsForWildcardEntry fuel w opt s pattern dirLength "." =
        some ⟨false, [], s⟩ ∧
      createTagsForWildcardEntry fuel w opt s pattern dirLength ".." =
        some ⟨false, [], s⟩) ∧
    (∀ l s pattern dirLength acc,
      wildcardLoop fuel w opt s pattern dirLength l acc =
        wildcardLoop fuel w opt s pattern dirLength
          (l.filter (fun e => decide (e ≠ "." ∧ e ≠ ".."))) acc) := by
  have hgo : ∀ l s dirName acc,
      goChildren fuel w opt s dirName l acc =
        goChildren fuel w opt s dirName
          (l.filter (fun e => decide (e ≠ "." ∧ e ≠ ".."))) acc := by
    intro l
    induction l with
    | nil => intro s dirName acc; rfl
    | cons e rest ih =>
      intro s dirName acc
      by_cases hdot : e = "." ∨ e = ".."
      · rw [goChildren, if_pos hdot, ih]
        have hfeq : (e :: rest).filter (fun e => decide (e ≠ "." ∧ e ≠ "..")) =
            rest.filter (fun e => decide (e ≠ "." ∧ e ≠ "..")) := by
          simp only [List.filter_cons]
          have : (decide (e ≠ "." ∧ e ≠ "..")) = false := by
            simp only [decide_eq_false_iff_not]
            tauto
          rw [this]
          simp
        rw [hfeq]
      · have hfc : (e :: rest).filter (fun e => decide (e ≠ "." ∧ e ≠ "..")) =
            e :: rest.filter (fun e => decide (e ≠ "." ∧ e ≠ "..")) := by
          simp only [List.filter_cons]
          have : (decide (e ≠ "." ∧ e ≠ "..")) = true := by
            simp only [decide_eq_true_eq]
            tauto
          rw [this]
          simp
        rw [hfc]
        conv_lhs => rw [goChildren]
        conv_rhs => rw [goChildren]
        rw [if_neg hdot, if_neg hdot]
        cases createTagsForEntry fuel w opt s
            (if dirName = "." then e else combinePathAndFile dirName e) with
        | none => rfl
        | some r1 =>
          simp only []
          rw [ih]
  have hwl : ∀ l s pattern dirLength acc,
      wildcardLoop fuel w opt s pattern dirLength l acc =
        wildcardLoop fuel w opt s pattern dirLength
          (l.filter (fun e => decide (e ≠ "." ∧ e ≠ ".."))) acc := by
    intro l
    induction l with
    | nil => intro s pattern dirLength acc; rfl
    | cons e rest ih =>
      intro s pattern dirLength acc
      by_cases hdot : e = "." ∨ e = ".."
      · have hce : createTagsForWildcardEntry fuel w opt s pattern dirLength e =
            some ⟨false, [], s⟩ := by
          simp [createTagsForWildcardEntry, hdot]
        have hfeq : (e :: rest).filter (fun e => decide (e ≠ "." ∧ e ≠ "..")) =
            rest.filter (fun e => decide (e ≠ "." ∧ e ≠ "..")) := by
          simp only [List.filter_cons]
          have : (decide (e ≠ "." ∧ e ≠ "..")) = false := by
            simp only [decide_eq_false_iff_not]
            tauto
          rw [this]
          simp
        conv_lhs => rw [wildcardLoop]
        rw [hce]
        simp only [Bool.or_false]
        rw [hfeq, ← ih]
        cases wildcardLoop fuel w opt s pattern dirLength rest acc with
        | none => rfl
        | some r2 => simp
      · have hfc : (e :: rest).filter (fun e => decide (e ≠ "." ∧ e ≠ "..")) =
            e :: rest.filter (fun e => decide (e ≠ "." ∧ e ≠ "..")) := by
          simp only [List.filter_cons]
          have : (decide (e ≠ "." ∧ e ≠ "..")) = true := by
            simp only [decide_eq_true_eq]
            tauto
          rw [this]
          simp
        rw [hfc]
        conv_lhs => rw [wildcardLoop]
        conv_rhs => rw [wildcardLoop]
        cases createTagsForWildcardEntry fuel w opt s pattern dirLength e with
        | none => rfl
        | some r1 =>
          simp only []
          rw [ih]
  refine ⟨hgo, ?_, ?_, hwl⟩
  · intro s dirName acc
    rw [goChildren, if_pos (Or.inl rfl), goChildren, if_pos (Or.inr rfl), goChildren]
  · intro s pattern dirLength
    constructor
    · simp [createTagsForWildcardEntry]
    · simp [createTagsForWildcardEntry]

/-- C9: each child of an expanded directory is dispatched to the classifier
under the bare entry name when the directory is exactly ".", and under the
directory name joined with the entry name by the path separator otherwise:
on every listing (dot entries anywhere, empty included) the readdir loop -
and recurseUsingOpendir as a whole - is exactly the classification loop
over the mapped child paths of the listing, one classifier call per
non-dot child, in listing order. -/
theorem c9_child_path (fuel : Nat) (w : World) (opt : Options) :
    (∀ l s dirName acc,
      goChildren fuel w opt s dirName l acc =
        createTagsForArgs fuel w opt s (childPaths dirName l) acc) ∧
    (∀ s dirName, w.opendirOk dirName = true →
      recurseUsingOpendir (fuel + 1) w opt s dirName =
        createTagsForArgs fuel w opt s (childPaths dirName (w.readdir dirName)) false) := by
  have hgo : ∀ l s dirName acc,
      goChildren fuel w opt s dirName l acc =
        createTagsForArgs fuel w opt s (childPaths dirName l) acc := by
    intro l
    induction l with
    | nil =>
      intro s dirName acc
      rw [show childPaths dirName [] = [] from rfl, goChildren, createTagsForArgs]
    | cons e rest ih =>
      intro s dirName acc
      by_cases hdot : e = "." ∨ e = ".."
      · rw [goChildren, if_pos hdot, ih]
        have hfeq : childPaths dirName (e :: rest) = childPaths dirName rest := by
          simp only [childPaths, List.filter_cons]
          have hd : (decide (e ≠ "." ∧ e ≠ "..")) = false := by
            simp only [decide_eq_false_iff_not]
            tauto
          rw [hd]
          simp
        rw [hfeq]
      · have hfc : childPaths dirName (e :: rest) =
            (if dirName = "." then e else combinePathAndFile dirName e) ::
              childPaths dirName rest := by
          simp only [childPaths, List.filter_cons]
          have hd : (decide (e ≠ "." ∧ e ≠ "..")) = true := by
            simp only [decide_eq_true_eq]
            tauto
          rw [hd]
          simp
        rw [hfc]
        conv_lhs => rw [goChildren]
        rw [if_neg hdot]
        conv_rhs => rw [createTagsForArgs]
        cases createTagsForEntry fuel w opt s
            (if dirName = "." then e else combinePathAndFile dirName e) with
        | none => rfl
        | some r1 =>
          simp only []
          rw [ih]
  refine ⟨hgo, ?_⟩
  intro s dirName hopen
  rw [recurseUsingOpendir]
  simp only [hopen, Bool.not_true, Bool.false_eq_true, if_false]
  exact hgo (w.readdir dirName) s dirName false

/-- C9 witness: expanding "." (listing [".", "..", "x"]) classifies exactly
the child "x" under its bare name, and expanding "sub" (listing ["y"])
classifies exactly "sub/y" - through the theorem's recurseUsingOpendir
conjunct. -/
theorem c9_witness :
    wC9.opendirOk "." = true ∧ wC9.opendirOk "sub" = true ∧
    recurseUsingOpendir 5 wC9 optC9 1 "." =
      createTagsForArgs 4 wC9 optC9 1 ["x"] false ∧
    recurseUsingOpendir 5 wC9 optC9 1 "sub" =
      createTagsForArgs 4 wC9 optC9 1 ["sub/y"] false := by
  have h1 := (c9_child_path 4 wC9 optC9).2 1 "." rfl
  have h2 := (c9_child_path 4 wC9 optC9).2 1 "sub" rfl
  have hcp1 : childPaths "." (wC9.readdir ".") = ["x"] := by decide
  have hcp2 : childPaths "sub" (wC9.readdir "sub") = ["sub/y"] := by decide
  rw [hcp1] at h1
  rw [hcp2] at h2
  exact ⟨rfl, rfl, h1, h2⟩

/-- C10: in filter mode standard output is flushed after every processed
entry regardless of terminator configuration, the terminator is written
(before the flush) exactly when one is configured, and in non-filter
list-file mode neither terminator nor per-entry flush occurs. -/
theorem c10_filter_flush (fuel : Nat) (w : World) (opt : Options) (s : Nat)
    (entries : List String) :
    (∀ r, createTagsFromFileInput fuel w opt s entries true false = some r →
      r.events.countP isFlushEv = entries.length ∧
      r.events.countP isTermEv =
        (match opt.filterTerminator with
         | some _ => entries.length
         | none => 0)) ∧
    (∀ e rest acc r,
      createTagsFromFileInput fuel w opt s (e :: rest) true acc = some r →
      ∃ r1 r2, createTagsForEntry fuel w opt s e = some r1 ∧
        createTagsFromFileInput fuel w opt s rest true (acc || r1.resize) = some r2 ∧
        r.events = r1.events ++
          ((match opt.filterTerminator with
            | some t => [Event.terminator t]
            | none => []) ++ [Event.flush]) ++ r2.events) ∧
    (∀ r, createTagsFromFileInput fuel w opt s entries false false = some r →
      r.events.countP isFlushEv = 0 ∧ r.events.countP isTermEv = 0) := by
  refine ⟨fun r h => fileInput_counts fuel w opt entries s false r h, ?_, ?_⟩
  · intro e rest acc r h
    rw [createTagsFromFileInput] at h
    split at h
    · simp at h
    · next r1 hc =>
      split at h
      · simp at h
      · next r2 hg =>
        cases h
        have hd1 := ((walker_inv fuel).1 w opt s e r1 hc).1
        rw [hd1] at hg
        exact ⟨r1, r2, hc, hg, by simp⟩
  · intro r h
    obtain ⟨bs, hbs, hres, hdep, hev⟩ :=
      fileInput_or fuel w opt false entries s false r h
    have hw := hev rfl
    constructor
    · exact walk_countP_zero _ hw _
        (by intro ev he; cases ev <;> simp_all [walkEvent, isFlushEv])
    · exact walk_countP_zero _ hw _
        (by intro ev he; cases ev <;> simp_all [walkEvent, isTermEv])

/-- C10 witness: two filter entries with terminator "T" configured - each
entry is followed by the terminator and a flush. -/
theorem c10_witness :
    createTagsFromFileInput 5 wC10 optC10 0 ["p", "q"] true false =
      some ⟨false, [Event.statQuery "p", Event.parsed "p", Event.terminator "T",
                    Event.flush, Event.statQuery "q", Event.parsed "q",
                    Event.terminator "T", Event.flush], 0⟩ ∧
    ([Event.statQuery "p", Event.parsed "p", Event.terminator "T", Event.flush,
      Event.statQuery "q", Event.parsed "q", Event.terminator "T",
      Event.flush].countP isFlushEv = (["p", "q"] : List String).length ∧
     [Event.statQuery "p", Event.parsed "p", Event.terminator "T", Event.flush,
      Event.statQuery "q", Event.parsed "q", Event.terminator "T",
      Event.flush].countP isTermEv = (["p", "q"] : List String).length) := by
  have hrun : createTagsFromFileInput 5 wC10 optC10 0 ["p", "q"] true false =
      some ⟨false, [Event.statQuery "p", Event.parsed "p", Event.terminator "T",
                    Event.flush, Event.statQuery "q", Event.parsed "q",
                    Event.terminator "T", Event.flush], 0⟩ := by
    simp [createTagsFromFileInput, createTagsForEntry, wC10, optC10]
  exact ⟨hrun, (c10_filter_flush 5 wC10 optC10 0 ["p", "q"]).1 _ hrun⟩

end Ctags
